import Mathlib

/-!
Verification development for the nanonet basecalling pipeline
(`nanonet/nanonetcall.py`).  The pure computations of `process_read` and
`main` (posterior preprocessing, transition logging, per-read timing
division, batch planning, OpenCL platform selection, run aggregation and
the final summary) are embedded as Lean functions over rational numbers.
The external `nanonet.decoding` module is not part of the sources; its
decoders are modelled from the specification (Viterbi-style dynamic
program, stay/step/skip moves) where a claim needs them.
-/

namespace Nanonet

/-- A posterior (or log-posterior) matrix: one row of rational scores per
event, one column per k-mer state.  Translates the numpy 2-d arrays of
`nanonetcall.py`. -/
abbrev Mat : Type := List (List ℚ)

/-- A 3-component transition model `(stay, step, skip)`. -/
abbrev Trans3 : Type := ℚ × ℚ × ℚ

/-- The 5-tuple of per-stage timings
`(feature, load, network, decoding, write)` accumulated by `main`. -/
abbrev Times5 : Type := ℚ × ℚ × ℚ × ℚ × ℚ

/-- First index at which a list attains its maximum, with ties resolved to
the earliest index: the behaviour of `np.argmax` on a row
(`nanonetcall.py` line 185). -/
def argmaxIdx : List ℚ → Nat
  | [] => 0
  | [_] => 0
  | a :: b :: t =>
    let j := argmaxIdx (b :: t)
    if (b :: t).getD j 0 > a then j + 1 else 0

/-- Column count of a matrix (`post.shape[1]` for the rectangular numpy
arrays of the source; rectangularity is a hypothesis of the theorems). -/
def matWidth (post : Mat) : Nat := (post.headD []).length

/-- Test of `nanonetcall.py` line 183: the k-mer table ends in the
all-`'X'` sentinel k-mer (`kmers[-1] == 'X'*len(kmers[-1])`). -/
def sentinelTable (kmers : List (List Char)) : Bool :=
  match kmers.getLast? with
  | some km => km.all (fun c => c == 'X')
  | none => false

/-- Lines 184-189 of `nanonetcall.py`: drop every event (row) whose
argmax is the sentinel state `shape[1] - 1`, then drop the sentinel
column itself. -/
def stripSentinel (post : Mat) : Mat :=
  (post.filter (fun r => argmaxIdx r != matWidth post - 1)).map List.dropLast

/-- The conditional sentinel stripping of lines 183-189: applied only when
the k-mer table ends in the sentinel k-mer. -/
def condStrip (kmers : List (List Char)) (post : Mat) : Mat :=
  if sentinelTable kmers then stripSentinel post else post

/-- Lines 191-192 of `nanonetcall.py`: divide each row by its own sum
(`weights = np.sum(post, axis=1); post /= weights`). -/
def rowNormalize (post : Mat) : Mat :=
  post.map (fun r => r.map (fun q => q / r.sum))

/-- Line 196 of `nanonetcall.py`: `post = min_prob + (1.0 - min_prob) * post`,
applied to every cell. -/
def floorScale (min_prob : ℚ) (post : Mat) : Mat :=
  post.map (fun r => r.map (fun q => min_prob + (1 - min_prob) * q))

/-- The full per-read posterior preprocessing of `process_read`
(lines 183-196): conditional sentinel stripping, row renormalization,
then the `min_prob` floor-and-rescale. -/
def preprocessPost (kmers : List (List Char)) (min_prob : ℚ) (post : Mat) : Mat :=
  floorScale min_prob (rowNormalize (condStrip kmers post))

/-- The feature-preparation loop of `process_read` (lines 131-145): each
per-read `make_basecall_input_multi` either yields data or raises; the
first failure makes the whole unit return `None`. -/
def prepStage {α : Type} : List (Option α) → Option (List α)
  | [] => some []
  | none :: _ => none
  | some x :: rest => (prepStage rest).map (fun l => x :: l)

/-- One element of the list returned by `process_read` when
`write_events` is set (line 271): name, called sequence, score, event
count after filtering, and the 5 per-stage timings. -/
structure PRResult where
  name : String
  seq : List Char
  score : ℚ
  nEv : Nat
  times : Times5
deriving DecidableEq

/-- Lines 219-221 of `nanonetcall.py`: the per-read decode times reported
for a unit are all `decode_time / len(fast5_list)`. -/
def decodeTimeList (decT : ℚ) (n : Nat) : List ℚ :=
  (List.range n).map (fun _ => decT / (n : ℚ))

/-- Lines 168-169 of `nanonetcall.py` (OpenCL path): the per-read network
times reported for a unit are all `(t3 - t2) / len(features_list)`. -/
def networkTimeListOpencl (t2 t3 : ℚ) (n : Nat) : List ℚ :=
  (List.range n).map (fun _ => (t3 - t2) / (n : ℚ))

/-- Lines 172-273 of `process_read` after the `post_only` early return:
preprocess every posterior, estimate and log-transform the transitions
(`est` and `lg` stand for the external `decoding.estimate_transitions`
and `np.log(__ETA__ + trans)`), decode each read (`dec` stands for the
external `decoding.decode_profile`), and build the per-read result list —
which is empty when `write_events` is false.  `k2s` stands for the
external `kmers_to_sequence`; the fast5 event-table write is external
output and carries no returned data beyond the tuple modelled here. -/
def decodeStage (est : Mat → Option Trans3 → Trans3) (lg : Trans3 → Trans3)
    (dec : Mat → Trans3 → ℚ × List Nat) (k2s : List (List Char) → List Char)
    (kmers : List (List Char)) (min_prob : ℚ) (transArg : Option Trans3)
    (write_events : Bool) (loadT : ℚ) (featT netT writeT : List ℚ) (decT : ℚ)
    (names : List String) (posts0 : List Mat) : Sum Mat (List PRResult) :=
  let posts1 := posts0.map (fun q => preprocessPost kmers min_prob q)
  let ltr := posts1.map (fun q => lg (est q transArg))
  let results := (posts1.zip ltr).map (fun qt => dec qt.1 qt.2)
  let n := posts1.length
  if write_events then
    Sum.inr ((List.range n).map (fun x =>
      { name := names.getD x "",
        seq := k2s (((results.getD x (0, [])).2).map (fun i => kmers.getD i [])),
        score := (results.getD x (0, [])).1,
        nEv := (posts1.getD x []).length,
        times := (featT.getD x 0, loadT, netT.getD x 0,
                  (decodeTimeList decT n).getD x 0, writeT.getD x 0) }))
  else Sum.inr []

/-- The value computed by `process_read` (CPU path) as a function of the
per-read preparation outcomes `preps` and the external collaborators:
`net` is `network.run`, the timing arguments are the measured wall-clock
durations.  `none` models the `return None` of line 143; `Sum.inl` models
the `post_only` early return of lines 193-194, which hands back the
posterior of the first read after row renormalization and before the
`min_prob` floor, never reaching the decode. -/
def process_read {α : Type} (net : α → Mat) (est : Mat → Option Trans3 → Trans3)
    (lg : Trans3 → Trans3) (dec : Mat → Trans3 → ℚ × List Nat)
    (k2s : List (List Char) → List Char) (kmers : List (List Char))
    (min_prob : ℚ) (transArg : Option Trans3) (post_only write_events : Bool)
    (loadT : ℚ) (featT netT writeT : List ℚ) (decT : ℚ)
    (preps : List (Option (String × α))) : Option (Sum Mat (List PRResult)) :=
  (prepStage preps).map (fun items =>
    let names := items.map Prod.fst
    let posts0 := items.map (fun it => net it.2)
    if post_only then
      match posts0 with
      | q :: _ => Sum.inl (rowNormalize (condStrip kmers q))
      | [] =>
        decodeStage est lg dec k2s kmers min_prob transArg write_events
          loadT featT netT writeT decT names []
    else
      decodeStage est lg dec k2s kmers min_prob transArg write_events
        loadT featT netT writeT decT names posts0)

/-- The run-level accumulator of `main` (lines 324-338): read, base and
event counts, summed per-stage timings, and the `(name, basecall)` pairs
written to the fasta output. -/
structure RunStats where
  nReads : Nat
  nBases : Nat
  nEvents : Nat
  timings : Times5
  fasta : List (String × List Char)
deriving DecidableEq

/-- The all-zero timing tuple (`timings = [0.0]*5`, line 327). -/
def zeroT : Times5 := (0, 0, 0, 0, 0)

/-- Componentwise sum of two timing tuples
(`timings = [x + y for x, y in zip(timings, time)]`, line 338). -/
def addT (a b : Times5) : Times5 :=
  (a.1 + b.1, a.2.1 + b.2.1, a.2.2.1 + b.2.2.1, a.2.2.2.1 + b.2.2.2.1,
   a.2.2.2.2 + b.2.2.2.2)

/-- The body of the inner loop of `main` (lines 332-338): write the basecall
and accumulate counts and timings for one successful result. -/
def resStep (st : RunStats) (r : PRResult) : RunStats :=
  { nReads := st.nReads + 1,
    nBases := st.nBases + r.seq.length,
    nEvents := st.nEvents + r.nEv,
    timings := addT st.timings r.times,
    fasta := st.fasta ++ [(r.name, r.seq)] }

/-- The body of the outer loop of `main` (lines 329-338): a `None` unit is
skipped (`continue`), a successful unit contributes each of its results. -/
def unitStep (st : RunStats) (ret : Option (List PRResult)) : RunStats :=
  match ret with
  | none => st
  | some rs => rs.foldl resStep st

/-- The complete aggregation loop of `main` over the per-unit returns of
`process_read` (delivered by `tang_imap`, whose input-to-output
association and per-item isolation are part of its documented contract). -/
def mainFold (rets : List (Option (List PRResult))) : RunStats :=
  rets.foldl unitStep { nReads := 0, nBases := 0, nEvents := 0, timings := zeroT, fasta := [] }

/-- The result accumulation of `main` viewed as a bare list of collected
results, for the unit-isolation claim: `None` units contribute nothing,
successful units contribute their result lists in order. -/
def aggregateOut (rets : List (Option (List PRResult))) : List PRResult :=
  rets.foldl (fun acc ret => match ret with | none => acc | some rs => acc ++ rs) []

/-- The results of the successful units, in order. -/
def successResults (rets : List (Option (List PRResult))) : List PRResult :=
  (rets.filterMap id).flatten

/-- Componentwise sum of the timing tuples of a result list. -/
def sumTimes (rs : List PRResult) : Times5 :=
  rs.foldr (fun r acc => addT r.times acc) zeroT

/-- Number of units whose `process_read` produced no result (skipped). -/
def skippedUnits (rets : List (Option (List PRResult))) : Nat :=
  rets.countP (fun r => r.isNone)

/-- The numbers written by the run summary of `main` (lines 340-360): read,
base and event counts with the wall time, then — only when at least one
read was processed — the five per-stage totals each divided by
`args.jobs`, interleaved with the kb/s and kev/s throughput figures
(`n_bases/1000` and `n_events/1000` are Python 2 integer divisions). -/
def summaryNumbers (jobs : Nat) (wall : ℚ) (st : RunStats) : List ℚ :=
  [(st.nReads : ℚ), (st.nBases : ℚ), (st.nEvents : ℚ), wall] ++
  (if 0 < st.nReads then
    [st.timings.1 / (jobs : ℚ),
     st.timings.2.1 / (jobs : ℚ),
     st.timings.2.2.1 / (jobs : ℚ),
     ((st.nBases / 1000 : Nat) : ℚ) / (st.timings.2.2.1 / (jobs : ℚ)),
     ((st.nEvents / 1000 : Nat) : ℚ) / (st.timings.2.2.1 / (jobs : ℚ)),
     st.timings.2.2.2.1 / (jobs : ℚ),
     ((st.nBases / 1000 : Nat) : ℚ) / (st.timings.2.2.2.1 / (jobs : ℚ)),
     ((st.nEvents / 1000 : Nat) : ℚ) / (st.timings.2.2.2.1 / (jobs : ℚ)),
     st.timings.2.2.2.2 / (jobs : ℚ)]
  else [])

/-- Lines 302-305 of `main`: the per-slot unit sizes handed to
`iterate_fast5`.  With OpenCL the first `P` of the `jobs` slots (one per
configured `vendor:device` pair) take `opencl_input_files` files,
all other slots take one file; the source presumes `P ≤ jobs`. -/
def filesPattern (opencl : Bool) (jobs P batch : Nat) : List Nat :=
  if opencl then (List.range jobs).map (fun x => if x < P then batch else 1)
  else List.replicate jobs 1

/-- Lines 315-321 of `main`: unit `i` is assigned the accelerator slot
`platforms[i % jobs]` when OpenCL is enabled and `i % jobs` is a valid
platform index, and the CPU path (`none`) otherwise. -/
def planAssign (opencl : Bool) (jobs : Nat) (platforms : List (String × Nat))
    (i : Nat) : Option (String × Nat) :=
  if opencl then platforms.get? (i % jobs) else none

/-- An OpenCL platform as seen by lines 157-161: its name string and its
list of GPU device handles. -/
structure CLPlatform where
  name : List Char
  gpus : List Nat
deriving DecidableEq

/-- Lowercasing of a name, as `str.lower()` on the ASCII vendor and
platform names compared by line 158. -/
def lcChars (s : List Char) : List Char := s.map Char.toLower

/-- Whether `needle` occurs in `hay` starting at position `i`. -/
def subAt (hay needle : List Char) (i : Nat) : Bool :=
  decide (needle = (hay.drop i).take needle.length)

/-- The Python substring test `needle in hay` on character lists. -/
def containsChars (hay needle : List Char) : Bool :=
  (List.range (hay.length + 1)).any (subAt hay needle)

/-- The platform filter of line 158: the platform has at least one GPU
device and the lowercased vendor occurs in its lowercased name. -/
def platformMatches (vendor : List Char) (p : CLPlatform) : Bool :=
  !p.gpus.isEmpty && containsChars (lcChars p.name) (lcChars vendor)

/-- Lines 157-161 of `process_read` (OpenCL path): filter the platforms,
take the first (`platforms[0]` — an `IndexError`, modelled as `none`,
when no platform matches), then take GPU device `device_id` (again an
`IndexError` when out of range).  `none` is a raised exception: the unit
fails; there is no code path that decodes on the CPU instead. -/
def selectOpenclDevice (plats : List CLPlatform) (vendor : List Char)
    (deviceId : Nat) : Option Nat :=
  match (plats.filter (platformMatches vendor)).head? with
  | none => none
  | some pl => pl.gpus.get? deviceId

/-- Modelled from the spec: the `step` predecessors of state `s` in the
missing `nanonet.decoding` module — the k-mers whose final `k-1` bases
are the first `k-1` bases of `s`, for states encoded as base-4 numbers
with the leading base most significant. -/
def stepPreds (k s : Nat) : List Nat :=
  (List.range 4).map (fun m => m * 4 ^ (k - 1) + s / 4)

/-- Modelled from the spec: the `skip` predecessors of state `s` — the
k-mers whose final `k-2` bases are the first `k-2` bases of `s`. -/
def skipPreds (k s : Nat) : List Nat :=
  (List.range 16).map (fun m => m * 4 ^ (k - 2) + s / 16)

/-- Modelled from the spec: first candidate of maximal score, realising
the deterministic tie-break (earlier candidates preferred). -/
def bestCand : List (ℚ × Nat) → ℚ × Nat
  | [] => (0, 0)
  | c :: cs => cs.foldl (fun b d => if d.1 > b.1 then d else b) c

/-- Modelled from the spec: the scored predecessor candidates of state
`s`, listed stay first, then steps, then skips, so `bestCand` implements
the stay-over-step-over-skip tie-break. -/
def cellCands (k : Nat) (lt : Trans3) (prev : List ℚ) (s : Nat) : List (ℚ × Nat) :=
  (prev.getD s 0 + lt.1, s) ::
    ((stepPreds k s).map (fun p => (prev.getD p 0 + lt.2.1, p)) ++
     (skipPreds k s).map (fun p => (prev.getD p 0 + lt.2.2, p)))

/-- Modelled from the spec: one dynamic-programming step — for each state
of the new event, its best score and arg-max predecessor. -/
def viterbiRow (k : Nat) (lt : Trans3) (prev row : List ℚ) : List ℚ × List Nat :=
  let cells := (List.range row.length).map (fun s =>
    let b := bestCand (cellCands k lt prev s)
    (row.getD s 0 + b.1, b.2))
  (cells.map Prod.fst, cells.map Prod.snd)

/-- Modelled from the spec: the forward pass, returning the final-event
score row and the back-pointer rows. -/
def viterbiFwd (k : Nat) (lt : Trans3) (first : List ℚ) (rest : List (List ℚ)) :
    List ℚ × List (List Nat) :=
  rest.foldl (fun acc row =>
    let r := viterbiRow k lt acc.1 row
    (r.1, acc.2 ++ [r.2])) (first, [])

/-- Modelled from the spec: back-pointer traceback over the pointer rows
given last-first, producing the state path from last event to first. -/
def tracebackRev : List (List Nat) → Nat → List Nat
  | [], s => [s]
  | row :: rest, s => s :: tracebackRev rest (row.getD s 0)

/-- Modelled from the spec: the Viterbi-style profile decode of the
missing `nanonet.decoding` module over a log-domain posterior matrix and
log-domain transition triple — initialization from the first row,
stay/step/skip recurrence, best final score, and traceback. -/
def decodeCore (k : Nat) (lt : Trans3) (lpost : Mat) : ℚ × List Nat :=
  match lpost with
  | [] => (0, [])
  | r0 :: rest =>
    let fr := viterbiFwd k lt r0 rest
    let sF := argmaxIdx fr.1
    (fr.1.getD sF 0, (tracebackRev fr.2.reverse sF).reverse)

/-- Modelled from the spec: `decoding.decode_profile` — the sequential
single-read decoder called at line 207. -/
def decode_profile (k : Nat) (lpost : Mat) (lt : Trans3) : ℚ × List Nat :=
  decodeCore k lt lpost

/-- Modelled from the spec: `decoding.decode_profile_opencl` — the
batched decoder called at line 202, which launches one logically
independent DP instance per read index on the shared queue and returns
the index-aligned score and state lists. -/
def decode_profile_opencl (k : Nat) (lposts : List Mat) (ltList : List Trans3) :
    List ℚ × List (List Nat) :=
  let rs := (List.range lposts.length).map (fun i =>
    decodeCore k (ltList.getD i (0, 0, 0)) (lposts.getD i []))
  (rs.map Prod.fst, rs.map Prod.snd)

/-- The flooring constant `__ETA__ = 1e-300` of `nanonetcall.py` line 29. -/
noncomputable def ETA : ℝ := 1 / 10 ^ 300

/-- Line 199 of `process_read`: `np.log(__ETA__ + trans)` — the
componentwise single log-transform of a transition triple. -/
noncomputable def logTrans (t : ℝ × ℝ × ℝ) : ℝ × ℝ × ℝ :=
  (Real.log (ETA + t.1), Real.log (ETA + t.2.1), Real.log (ETA + t.2.2))

/-- Lines 198-199 of `process_read`: the transition list handed to the
decoder — per read, the estimated (or supplied) transitions passed once
through `logTrans`.  `est` stands for the external
`decoding.estimate_transitions` applied to the posterior of that read. -/
noncomputable def transListR (est : Mat → ℝ × ℝ × ℝ) (posts : List Mat) :
    List (ℝ × ℝ × ℝ) :=
  posts.map (fun p => logTrans (est p))

/-- Concrete k-mer table ending in the all-'X' sentinel, for witnesses. -/
def exKmers : List (List Char) := [['A', 'A'], ['X', 'X']]

/-- Concrete posterior matrix for witnesses: the argmax of the second row is
the sentinel column. -/
def exPost : Mat := [[1/2, 1/2], [0, 1]]

/-- Concrete successful result, for the summary counterexample. -/
def exR1 : PRResult :=
  { name := "r1", seq := ['A', 'C', 'G', 'T'], score := 0, nEv := 7,
    times := (2, 2, 2, 2, 2) }

/-- Second concrete successful result, for the summary counterexample. -/
def exR2 : PRResult :=
  { name := "r2", seq := ['A', 'C', 'G', 'T', 'A'], score := 0, nEv := 8,
    times := (4, 4, 4, 4, 4) }

/-- A concrete run: two successful units around one failed unit. -/
def exRun : List (Option (List PRResult)) := [some [exR1], none, some [exR2]]

/-- Concrete platform list with no GPU-backed platform whose name
mentions the requested vendor: an NVIDIA platform with one GPU, and an
AMD-named platform with no GPU devices. -/
def exPlats : List CLPlatform :=
  [{ name := ['N', 'V', 'I', 'D', 'I', 'A'], gpus := [0] },
   { name := ['A', 'M', 'D', ' ', 'F', 'X'], gpus := [] }]

/-- Concrete one-read log-posterior batch for witnesses. -/
def exLPosts : List Mat := [[[1, 2, 3, 4], [4, 3, 2, 1]]]

/-- Concrete log-transition list for witnesses. -/
def exLTrans : List Trans3 := [(1/2, 1/3, 1/5)]

/-! ### Helper lemmas about the embedded list operations -/

theorem prepStage_map_some {α : Type} (l : List α) :
    prepStage (l.map Option.some) = some l := by
  induction l with
  | nil => rfl
  | cons a t ih => simp [prepStage, ih]

theorem prepStage_eq_none {α : Type} (preps : List (Option α)) (h : none ∈ preps) :
    prepStage preps = none := by
  induction preps with
  | nil => simp at h
  | cons a t ih =>
    cases a with
    | none => rfl
    | some x =>
      have ht : none ∈ t := by
        rcases List.mem_cons.mp h with h1 | h2
        · exact absurd h1 (by simp)
        · exact h2
      simp [prepStage, ih ht]

theorem argmaxIdx_cons2 (a b : ℚ) (t : List ℚ) :
    argmaxIdx (a :: b :: t) =
      if (b :: t).getD (argmaxIdx (b :: t)) 0 > a then argmaxIdx (b :: t) + 1
      else 0 := rfl

theorem argmaxIdx_lt_length : ∀ (l : List ℚ), l ≠ [] → argmaxIdx l < l.length := by
  intro l
  induction l with
  | nil => intro h; exact absurd rfl h
  | cons a t ih =>
    intro _
    cases t with
    | nil => simp [argmaxIdx]
    | cons b t2 =>
      rw [argmaxIdx_cons2]
      have ht := ih (List.cons_ne_nil b t2)
      split_ifs with hgt
      · simp only [List.length_cons] at ht ⊢
        omega
      · simp

theorem getD_le_argmaxIdx : ∀ (l : List ℚ) (i : Nat), i < l.length →
    l.getD i 0 ≤ l.getD (argmaxIdx l) 0 := by
  intro l
  induction l with
  | nil => intro i hi; simp at hi
  | cons a t ih =>
    intro i hi
    cases t with
    | nil =>
      cases i with
      | zero => simp [argmaxIdx]
      | succ i2 => simp only [List.length_cons, List.length_nil] at hi; omega
    | cons b t2 =>
      rw [argmaxIdx_cons2]
      split_ifs with hgt
      · cases i with
        | zero => simpa using le_of_lt hgt
        | succ i2 =>
          have h2 : i2 < (b :: t2).length := by
            simp only [List.length_cons] at hi ⊢; omega
          simpa using ih i2 h2
      · cases i with
        | zero => simp
        | succ i2 =>
          have h2 : i2 < (b :: t2).length := by
            simp only [List.length_cons] at hi ⊢; omega
          have h1 := ih i2 h2
          simp only [List.getD_cons_succ, List.getD_cons_zero]
          exact le_trans h1 (not_lt.mp hgt)

theorem getD_le_sum : ∀ (l : List ℚ), (∀ q ∈ l, 0 ≤ q) → ∀ i, i < l.length →
    l.getD i 0 ≤ l.sum := by
  intro l
  induction l with
  | nil => intro _ i hi; simp at hi
  | cons a t ih =>
    intro hnn i hi
    cases i with
    | zero =>
      simp only [List.getD_cons_zero, List.sum_cons]
      have ht : 0 ≤ t.sum :=
        List.sum_nonneg (fun q hq => hnn q (List.mem_cons_of_mem a hq))
      linarith
    | succ i2 =>
      have h2 : i2 < t.length := by simp only [List.length_cons] at hi; omega
      have h1 := ih (fun q hq => hnn q (List.mem_cons_of_mem a hq)) i2 h2
      have ha : 0 ≤ a := hnn a (List.mem_cons_self a t)
      simp only [List.getD_cons_succ, List.sum_cons]
      linarith

theorem sum_map_div (l : List ℚ) (s : ℚ) :
    (l.map (fun q => q / s)).sum = l.sum / s := by
  induction l with
  | nil => simp
  | cons a t ih => simp [ih, add_div]

theorem getD_dropLast : ∀ (l : List ℚ) (i : Nat), i + 1 < l.length →
    l.dropLast.getD i 0 = l.getD i 0 := by
  intro l
  induction l with
  | nil => intro i hi; simp at hi
  | cons a t ih =>
    intro i hi
    cases t with
    | nil => simp only [List.length_cons, List.length_nil] at hi; omega
    | cons b t2 =>
      rw [List.dropLast_cons₂]
      cases i with
      | zero => rfl
      | succ i2 =>
        have h2 : i2 + 1 < (b :: t2).length := by
          simp only [List.length_cons] at hi ⊢; omega
        simpa using ih i2 h2

theorem exists_getD_of_mem : ∀ (l : List ℚ) (x : ℚ), x ∈ l →
    ∃ i, i < l.length ∧ l.getD i 0 = x := by
  intro l
  induction l with
  | nil => intro x hx; simp at hx
  | cons a t ih =>
    intro x hx
    rcases List.mem_cons.mp hx with h1 | h2
    · exact ⟨0, by simp, by simp [h1]⟩
    · rcases ih x h2 with ⟨i, hi, hg⟩
      refine ⟨i + 1, ?_, ?_⟩
      · simp only [List.length_cons]; omega
      · simpa using hg

theorem getD_replicate_self (c : ℚ) : ∀ (n i : Nat), i < n →
    (List.replicate n c).getD i 0 = c := by
  intro n
  induction n with
  | zero => intro i hi; omega
  | succ n2 ih =>
    intro i hi
    cases i with
    | zero => simp [List.replicate]
    | succ i2 =>
      simp only [List.replicate, List.getD_cons_succ]
      exact ih i2 (by omega)

theorem getD_const_range (c : ℚ) (n i : Nat) (h : i < n) :
    ((List.range n).map (fun _ => c)).getD i 0 = c := by
  have hmap : (List.range n).map (fun _ : Nat => c) = List.replicate n c := by
    simp [List.map_const']
  rw [hmap]
  exact getD_replicate_self c n i h

theorem addT_zeroT (a : Times5) : addT a zeroT = a := by
  obtain ⟨a1, a2, a3, a4, a5⟩ := a
  simp [addT, zeroT]

theorem zeroT_addT (a : Times5) : addT zeroT a = a := by
  obtain ⟨a1, a2, a3, a4, a5⟩ := a
  simp [addT, zeroT]

theorem addT_assoc (a b c : Times5) : addT (addT a b) c = addT a (addT b c) := by
  obtain ⟨a1, a2, a3, a4, a5⟩ := a
  obtain ⟨b1, b2, b3, b4, b5⟩ := b
  obtain ⟨c1, c2, c3, c4, c5⟩ := c
  simp [addT, add_assoc]

theorem sumTimes_cons (r : PRResult) (t : List PRResult) :
    sumTimes (r :: t) = addT r.times (sumTimes t) := rfl

theorem foldr_addT_seed (rs : List PRResult) (s : Times5) :
    rs.foldr (fun r acc => addT r.times acc) s = addT (sumTimes rs) s := by
  induction rs with
  | nil => simp [sumTimes, zeroT_addT]
  | cons r t ih => simp [sumTimes_cons, List.foldr_cons, ih, addT_assoc]

theorem sumTimes_append (xs ys : List PRResult) :
    sumTimes (xs ++ ys) = addT (sumTimes xs) (sumTimes ys) := by
  unfold sumTimes
  rw [List.foldr_append, foldr_addT_seed]
  rfl

theorem resFold_eq (rs : List PRResult) (st : RunStats) :
    rs.foldl resStep st =
      { nReads := st.nReads + rs.length,
        nBases := st.nBases + (rs.map (fun r => r.seq.length)).sum,
        nEvents := st.nEvents + (rs.map (fun r => r.nEv)).sum,
        timings := addT st.timings (sumTimes rs),
        fasta := st.fasta ++ rs.map (fun r => (r.name, r.seq)) } := by
  induction rs generalizing st with
  | nil =>
    obtain ⟨n1, n2, n3, t, fa⟩ := st
    simp [sumTimes, addT_zeroT]
  | cons r t ih =>
    rw [List.foldl_cons, ih]
    simp only [resStep, RunStats.mk.injEq, List.length_cons, List.map_cons,
      List.sum_cons, sumTimes_cons]
    refine ⟨by omega, by ring, by omega, by rw [addT_assoc], by simp⟩

theorem unitFold_eq (rets : List (Option (List PRResult))) (st : RunStats) :
    rets.foldl unitStep st =
      { nReads := st.nReads + (successResults rets).length,
        nBases := st.nBases + ((successResults rets).map (fun r => r.seq.length)).sum,
        nEvents := st.nEvents + ((successResults rets).map (fun r => r.nEv)).sum,
        timings := addT st.timings (sumTimes (successResults rets)),
        fasta := st.fasta ++ (successResults rets).map (fun r => (r.name, r.seq)) } := by
  induction rets generalizing st with
  | nil =>
    obtain ⟨n1, n2, n3, t, fa⟩ := st
    simp [successResults, sumTimes, addT_zeroT]
  | cons o t ih =>
    cases o with
    | none =>
      rw [List.foldl_cons]
      have hs : successResults (none :: t) = successResults t := by
        simp [successResults]
      rw [hs]
      exact ih st
    | some rs =>
      rw [List.foldl_cons]
      have hstep : unitStep st (some rs) = rs.foldl resStep st := rfl
      rw [hstep, resFold_eq, ih]
      have hs : successResults (some rs :: t) = rs ++ successResults t := by
        simp [successResults]
      rw [hs]
      simp only [RunStats.mk.injEq, List.length_append, List.map_append,
        List.sum_append, sumTimes_append]
      refine ⟨by omega, by ring, by omega, by rw [addT_assoc], by simp⟩

theorem mainFold_eq (rets : List (Option (List PRResult))) :
    mainFold rets =
      { nReads := (successResults rets).length,
        nBases := ((successResults rets).map (fun r => r.seq.length)).sum,
        nEvents := ((successResults rets).map (fun r => r.nEv)).sum,
        timings := sumTimes (successResults rets),
        fasta := (successResults rets).map (fun r => (r.name, r.seq)) } := by
  unfold mainFold
  rw [unitFold_eq]
  simp [zeroT_addT]

theorem aggregateOut_acc (rets : List (Option (List PRResult)))
    (acc : List PRResult) :
    rets.foldl (fun acc ret => match ret with | none => acc | some rs => acc ++ rs) acc
      = acc ++ (rets.filterMap id).flatten := by
  induction rets generalizing acc with
  | nil => simp
  | cons o t ih =>
    cases o with
    | none => rw [List.foldl_cons]; simpa using ih acc
    | some rs =>
      rw [List.foldl_cons]
      have := ih (acc ++ rs)
      simpa [List.append_assoc] using this

theorem aggregateOut_eq (rets : List (Option (List PRResult))) :
    aggregateOut rets = (rets.filterMap id).flatten := by
  simpa using aggregateOut_acc rets []

theorem rangeMap_eq_zipMap {β : Type} (g : Mat → Trans3 → β) :
    ∀ (ps : List Mat) (ts : List Trans3), ps.length = ts.length →
      (List.range ps.length).map (fun i => g (ps.getD i []) (ts.getD i (0, 0, 0))) =
        (ps.zip ts).map (fun pt => g pt.1 pt.2) := by
  intro ps
  induction ps with
  | nil => intro ts h; simp
  | cons p pt ih =>
    intro ts h
    cases ts with
    | nil => simp at h
    | cons t ts2 =>
      have h2 : pt.length = ts2.length := by simpa using h
      simp only [List.length_cons, List.range_succ_eq_map, List.map_cons,
        List.map_map, List.zip_cons_cons]
      congr 1
      rw [← ih ts2 h2]
      apply List.map_congr_left
      intro i hi
      simp [Function.comp]

/-! ### Claim theorems -/

/-- C1: the batched/accelerated decode returns, for each read of the
batch, exactly the score and state path that the sequential decode
produces on that read alone with the same transition model — the result
lists are index-aligned with the input lists and agree pairwise with the
per-read sequential results (exact arithmetic; the claim allows
accelerator floating-point nondeterminism on top of this). -/
theorem c1_batch_equiv (k : Nat) (ps : List Mat) (ts : List Trans3)
    (h : ps.length = ts.length) :
    decode_profile_opencl k ps ts =
      (((ps.zip ts).map (fun pt => decode_profile k pt.1 pt.2)).map Prod.fst,
       ((ps.zip ts).map (fun pt => decode_profile k pt.1 pt.2)).map Prod.snd) := by
  unfold decode_profile_opencl
  rw [rangeMap_eq_zipMap (fun p t => decodeCore k t p) ps ts h]
  rfl

/-- Witness for C1 at a concrete one-read batch. -/
theorem c1_batch_equiv_w :
    exLPosts.length = exLTrans.length ∧
    decode_profile_opencl 1 exLPosts exLTrans =
      (((exLPosts.zip exLTrans).map (fun pt => decode_profile 1 pt.1 pt.2)).map Prod.fst,
       ((exLPosts.zip exLTrans).map (fun pt => decode_profile 1 pt.1 pt.2)).map Prod.snd) :=
  ⟨rfl, c1_batch_equiv 1 exLPosts exLTrans rfl⟩

/-- C5: the planner is a deterministic round-robin over the configured
device slots — the assignment has period `jobs` in the read index, a
unit whose residue is a valid platform index gets exactly that
`vendor:device` slot, every other unit (and every unit of a non-OpenCL
run) falls back to CPU-sequential decoding, and the slot sizes give
accelerator units the configured `opencl_input_files` batch size and CPU
units a single file. -/
theorem c5_planner (jobs P batch : Nat) (platforms : List (String × Nat))
    (i x : Nat) (hj : 0 < jobs) (hP : platforms.length = P) (hPj : P ≤ jobs) :
    planAssign true jobs platforms (i + jobs) = planAssign true jobs platforms i ∧
    (i % jobs < P → planAssign true jobs platforms i = platforms.get? (i % jobs)) ∧
    (P ≤ i % jobs → planAssign true jobs platforms i = none) ∧
    planAssign false jobs platforms i = none ∧
    (x < P → (filesPattern true jobs P batch).get? x = some batch) ∧
    (P ≤ x → x < jobs → (filesPattern true jobs P batch).get? x = some 1) := by
  refine ⟨?_, fun _ => rfl, ?_, rfl, ?_, ?_⟩
  · simp [planAssign, Nat.add_mod_right]
  · intro hge
    simp only [planAssign, if_true]
    apply List.get?_eq_none.mpr
    omega
  · intro hx
    have hxj : x < jobs := lt_of_lt_of_le hx hPj
    simp only [filesPattern, if_true]
    rw [List.get?_map, List.get?_range hxj]
    simp [hx]
  · intro hx1 hx2
    simp only [filesPattern, if_true]
    rw [List.get?_map, List.get?_range hx2]
    simp
    omega

/-- Witness for C5 at `jobs = 3`, two platforms, read index 7, slot 2. -/
theorem c5_planner_w :
    0 < 3 ∧ ([("nvidia", 0), ("amd", 1)] : List (String × Nat)).length = 2 ∧ 2 ≤ 3 ∧
    (planAssign true 3 [("nvidia", 0), ("amd", 1)] (7 + 3) =
        planAssign true 3 [("nvidia", 0), ("amd", 1)] 7 ∧
     (7 % 3 < 2 → planAssign true 3 [("nvidia", 0), ("amd", 1)] 7 =
        ([("nvidia", 0), ("amd", 1)] : List (String × Nat)).get? (7 % 3)) ∧
     (2 ≤ 7 % 3 → planAssign true 3 [("nvidia", 0), ("amd", 1)] 7 = none) ∧
     planAssign false 3 [("nvidia", 0), ("amd", 1)] 7 = none ∧
     (2 < 2 → (filesPattern true 3 2 4).get? 2 = some 4) ∧
     (2 ≤ 2 → 2 < 3 → (filesPattern true 3 2 4).get? 2 = some 1)) :=
  ⟨by norm_num, rfl, by norm_num,
   c5_planner 3 2 4 [("nvidia", 0), ("amd", 1)] 7 2 (by norm_num) rfl (by norm_num)⟩

/-- C6: when no OpenCL GPU platform matches the requested vendor, the
device selection of the accelerated path yields `none` — the raised
`IndexError` of `platforms[0]` — so the unit errors out; there is no
silent fall back to a CPU decode. -/
theorem c6_no_platform (plats : List CLPlatform) (vendor : List Char)
    (deviceId : Nat) (h : ∀ p ∈ plats, platformMatches vendor p = false) :
    selectOpenclDevice plats vendor deviceId = none := by
  have hfil : plats.filter (platformMatches vendor) = [] :=
    List.filter_eq_nil_iff.mpr (fun p hp => by simp [h p hp])
  simp [selectOpenclDevice, hfil]

/-- Witness for C6: an NVIDIA GPU platform and a GPU-less AMD platform,
with vendor `amd` requested. -/
theorem c6_no_platform_w :
    (∀ p ∈ exPlats, platformMatches ['a', 'm', 'd'] p = false) ∧
    selectOpenclDevice exPlats ['a', 'm', 'd'] 0 = none :=
  ⟨by decide, c6_no_platform exPlats ['a', 'm', 'd'] 0 (by decide)⟩

/-- C7: the transition triple handed to the decoder is the componentwise
single log-transform `log(1e-300 + p)` of the estimated or supplied
transition probabilities, and for every non-negative component the
argument of the logarithm is strictly positive — so the logged value is
the honest (finite) logarithm of a positive real, never a `log 0`. -/
theorem c7_log_once (est : Mat → ℝ × ℝ × ℝ) (posts : List Mat) (p : ℝ)
    (hp : 0 ≤ p) :
    transListR est posts = posts.map (fun q => logTrans (est q)) ∧
    0 < ETA + p ∧
    Real.exp (Real.log (ETA + p)) = ETA + p := by
  have hE : (0 : ℝ) < ETA := by
    unfold ETA
    positivity
  have hpos : 0 < ETA + p := by linarith
  exact ⟨rfl, hpos, Real.exp_log hpos⟩

/-- Witness for C7 at the boundary input `p = 0`. -/
theorem c7_log_once_w :
    (0 : ℝ) ≤ 0 ∧
    (transListR (fun _ : Mat => ((0 : ℝ), (0 : ℝ), (0 : ℝ))) ([] : List Mat) =
        List.map (fun q : Mat => logTrans ((fun _ : Mat => ((0 : ℝ), (0 : ℝ), (0 : ℝ))) q))
          ([] : List Mat) ∧
     0 < ETA + 0 ∧ Real.exp (Real.log (ETA + 0)) = ETA + 0) :=
  ⟨le_refl 0,
   c7_log_once (fun _ : Mat => ((0 : ℝ), (0 : ℝ), (0 : ℝ))) ([] : List Mat) 0 (le_refl 0)⟩

/-- C10: in a multi-read unit the reported per-read network-inference
time and per-read decode time are not individually measured: every entry
of the reported lists equals the total measured unit time for that
stage divided by the number of reads in the unit. -/
theorem c10_time_division (t2 t3 decT : ℚ) (n : Nat) (hn : 2 ≤ n) (i : Nat)
    (hi : i < n) :
    (networkTimeListOpencl t2 t3 n).getD i 0 = (t3 - t2) / (n : ℚ) ∧
    (decodeTimeList decT n).getD i 0 = decT / (n : ℚ) ∧
    (networkTimeListOpencl t2 t3 n).length = n ∧
    (decodeTimeList decT n).length = n := by
  refine ⟨?_, ?_, by simp [networkTimeListOpencl], by simp [decodeTimeList]⟩
  · exact getD_const_range _ n i hi
  · exact getD_const_range _ n i hi

/-- Witness for C10 at a two-read unit. -/
theorem c10_time_division_w :
    2 ≤ 2 ∧ 1 < 2 ∧
    ((networkTimeListOpencl 1 5 2).getD 1 0 = (5 - 1) / ((2 : Nat) : ℚ) ∧
     (decodeTimeList 6 2).getD 1 0 = 6 / ((2 : Nat) : ℚ) ∧
     (networkTimeListOpencl 1 5 2).length = 2 ∧
     (decodeTimeList 6 2).length = 2) :=
  ⟨by norm_num, by norm_num, c10_time_division 1 5 6 2 (by norm_num) 1 (by norm_num)⟩

/-- C2: for a posterior matrix whose k-mer table ends in the all-'X'
sentinel k-mer, the preprocessing of `process_read` is exactly: remove
every event whose row argmax is the sentinel state, drop the sentinel
column, renormalize the remaining rows — which then each sum to 1 — and
floor-rescale every cell as `p' = min_prob + (1 - min_prob) * p`
(hypotheses: the matrix is rectangular of width `K` with non-negative
rows summing to 1, as produced by the softmax of the network). -/
theorem c2_preprocess (kmers : List (List Char)) (min_prob : ℚ) (post : Mat)
    (K : Nat) (hsent : sentinelTable kmers = true)
    (hw : ∀ r ∈ post, r.length = K)
    (hnn : ∀ r ∈ post, ∀ q ∈ r, 0 ≤ q)
    (hsum : ∀ r ∈ post, r.sum = 1) :
    preprocessPost kmers min_prob post
        = floorScale min_prob (rowNormalize (stripSentinel post)) ∧
    stripSentinel post
        = (post.filter (fun r => argmaxIdx r != K - 1)).map List.dropLast ∧
    ∀ r ∈ rowNormalize (stripSentinel post), r.sum = 1 := by
  refine ⟨by simp [preprocessPost, condStrip, hsent], ?_, ?_⟩
  · cases post with
    | nil => simp [stripSentinel]
    | cons r0 rest =>
      have h0 : r0.length = K := hw r0 (List.mem_cons_self r0 rest)
      unfold stripSentinel matWidth
      rw [List.headD_cons, h0]
  · intro r hr
    rcases List.mem_map.mp hr with ⟨r1, hr1, hfr⟩
    unfold stripSentinel at hr1
    rcases List.mem_map.mp hr1 with ⟨r2, hr2, hdl⟩
    obtain ⟨hr2p, hne⟩ := List.mem_filter.mp hr2
    have hKlen : r2.length = K := hw r2 hr2p
    have hnn2 : ∀ q ∈ r2, 0 ≤ q := hnn r2 hr2p
    have hsum2 : r2.sum = 1 := hsum r2 hr2p
    have hr2ne : r2 ≠ [] := by
      intro hcon
      rw [hcon] at hsum2
      simp at hsum2
    have hmw : matWidth post = K := by
      cases post with
      | nil => simp at hr2p
      | cons q0 qrest =>
        unfold matWidth
        rw [List.headD_cons]
        exact hw q0 (List.mem_cons_self q0 qrest)
    have hjlt : argmaxIdx r2 < K := by
      rw [← hKlen]
      exact argmaxIdx_lt_length r2 hr2ne
    have hjne : argmaxIdx r2 ≠ K - 1 := by
      rw [hmw] at hne
      simpa using hne
    have hKpos : 0 < K := by omega
    have hjlt1 : argmaxIdx r2 < K - 1 := by omega
    have hjmem : r2.getD (argmaxIdx r2) 0 ∈ r2 := by
      have hlt : argmaxIdx r2 < r2.length := by omega
      rw [List.getD_eq_getElem r2 0 hlt]
      exact List.getElem_mem hlt
    have hjpos : 0 < r2.getD (argmaxIdx r2) 0 := by
      rcases lt_or_le 0 (r2.getD (argmaxIdx r2) 0) with hp | hp
      · exact hp
      · exfalso
        have hz : r2.getD (argmaxIdx r2) 0 = 0 := le_antisymm hp (hnn2 _ hjmem)
        have hall : ∀ x ∈ r2, x = 0 := by
          intro x hx
          rcases exists_getD_of_mem r2 x hx with ⟨i, hi, hg⟩
          have hle := getD_le_argmaxIdx r2 i hi
          rw [hz, hg] at hle
          exact le_antisymm hle (hnn2 x hx)
        have hzero : r2.sum = 0 := List.sum_eq_zero hall
        rw [hsum2] at hzero
        exact one_ne_zero hzero
    have hdln : ∀ q ∈ r2.dropLast, 0 ≤ q :=
      fun q hq => hnn2 q (List.dropLast_subset r2 hq)
    have hdll : r2.dropLast.length = r2.length - 1 := List.length_dropLast r2
    have hjdl : argmaxIdx r2 < r2.dropLast.length := by omega
    have hgdl : r2.dropLast.getD (argmaxIdx r2) 0 = r2.getD (argmaxIdx r2) 0 :=
      getD_dropLast r2 (argmaxIdx r2) (by omega)
    have hsumpos : 0 < r2.dropLast.sum := by
      have hb := getD_le_sum r2.dropLast hdln (argmaxIdx r2) hjdl
      rw [hgdl] at hb
      linarith
    rw [← hfr, ← hdl, sum_map_div]
    exact div_self (ne_of_gt hsumpos)

/-- Witness for C2 at a 2-state table with sentinel `XX` and a posterior
whose second event argmaxes the sentinel. -/
theorem c2_preprocess_w :
    sentinelTable exKmers = true ∧
    (∀ r ∈ exPost, r.length = 2) ∧
    (∀ r ∈ exPost, ∀ q ∈ r, 0 ≤ q) ∧
    (∀ r ∈ exPost, r.sum = 1) ∧
    (preprocessPost exKmers (1/10) exPost
        = floorScale (1/10) (rowNormalize (stripSentinel exPost)) ∧
     stripSentinel exPost
        = (exPost.filter (fun r => argmaxIdx r != 2 - 1)).map List.dropLast ∧
     ∀ r ∈ rowNormalize (stripSentinel exPost), r.sum = 1) :=
  ⟨by decide, by decide, by norm_num [exPost], by norm_num [exPost],
   c2_preprocess exKmers (1/10) exPost 2 (by decide) (by decide)
     (by norm_num [exPost]) (by norm_num [exPost])⟩

/-- C8: with `post_only` set and a unit whose feature preparation
succeeds, `process_read` returns exactly the posterior of the first read after
sentinel filtering and row renormalization — before any `min_prob`
flooring, with no decode performed (the result is the `Sum.inl`
posterior, not a decoded result list), and with the value independent of
every remaining read of the unit. -/
theorem c8_post_only {α : Type} (net : α → Mat) (est : Mat → Option Trans3 → Trans3)
    (lg : Trans3 → Trans3) (dec : Mat → Trans3 → ℚ × List Nat)
    (k2s : List (List Char) → List Char) (kmers : List (List Char))
    (min_prob : ℚ) (transArg : Option Trans3) (write_events : Bool)
    (loadT : ℚ) (featT netT writeT : List ℚ) (decT : ℚ)
    (p : String × α) (ps : List (String × α)) :
    process_read net est lg dec k2s kmers min_prob transArg true write_events
        loadT featT netT writeT decT ((p :: ps).map Option.some)
      = some (Sum.inl (rowNormalize (condStrip kmers (net p.2)))) := by
  unfold process_read
  rw [prepStage_map_some]
  rfl

/-- C9: with `write_events` unset, a unit whose every read prepares
successfully still returns the empty result list — so `main` reports no
name, sequence, score, event count or timing for it, and a successful
empty unit contributes nothing to the run totals. -/
theorem c9_write_events_false {α : Type} (net : α → Mat)
    (est : Mat → Option Trans3 → Trans3) (lg : Trans3 → Trans3)
    (dec : Mat → Trans3 → ℚ × List Nat) (k2s : List (List Char) → List Char)
    (kmers : List (List Char)) (min_prob : ℚ) (transArg : Option Trans3)
    (loadT : ℚ) (featT netT writeT : List ℚ) (decT : ℚ)
    (ps : List (String × α)) (xs ys : List (Option (List PRResult))) :
    process_read net est lg dec k2s kmers min_prob transArg false false
        loadT featT netT writeT decT (ps.map Option.some)
      = some (Sum.inr ([] : List PRResult)) ∧
    mainFold (xs ++ some [] :: ys) = mainFold (xs ++ ys) := by
  constructor
  · unfold process_read
    rw [prepStage_map_some]
    rfl
  · unfold mainFold
    rw [List.foldl_append, List.foldl_append, List.foldl_cons]
    rfl

/-- C3: a unit whose feature preparation raises yields the per-unit
no-result signal `none` (line 143); a failed unit leaves the aggregated
output of the executor loop exactly as it would have been without that
unit; and the aggregated output consists of exactly the successful
results of the non-failed units, in order.  The per-item isolation of the external
`tang_imap` is modelled as the unit function `f` returning `none` for a
failed unit. -/
theorem c3_unit_isolation {α U : Type} (f : U → Option (List PRResult)) (b : U)
    (hb : f b = none) (us vs : List U)
    (net : α → Mat) (est : Mat → Option Trans3 → Trans3) (lg : Trans3 → Trans3)
    (dec : Mat → Trans3 → ℚ × List Nat) (k2s : List (List Char) → List Char)
    (kmers : List (List Char)) (min_prob : ℚ) (transArg : Option Trans3)
    (post_only write_events : Bool) (loadT : ℚ) (featT netT writeT : List ℚ)
    (decT : ℚ) (preps : List (Option (String × α))) (hpre : none ∈ preps)
    (rets : List (Option (List PRResult))) :
    process_read net est lg dec k2s kmers min_prob transArg post_only
        write_events loadT featT netT writeT decT preps = none ∧
    aggregateOut ((us ++ b :: vs).map f) = aggregateOut ((us ++ vs).map f) ∧
    aggregateOut rets = (rets.filterMap id).flatten := by
  refine ⟨?_, ?_, aggregateOut_eq rets⟩
  · unfold process_read
    rw [prepStage_eq_none preps hpre]
    rfl
  · rw [aggregateOut_eq, aggregateOut_eq]
    simp [List.filterMap_append, List.filterMap_cons, hb]

/-- Witness for C3 at a one-unit run with a failed preparation. -/
theorem c3_unit_isolation_w :
    ((fun _ : Unit => (none : Option (List PRResult))) () = none) ∧
    ((none : Option (String × Unit)) ∈ [(none : Option (String × Unit))]) ∧
    (process_read (fun _ : Unit => ([] : Mat))
        (fun _ _ => ((0 : ℚ), (0 : ℚ), (0 : ℚ))) id
        (fun _ _ => ((0 : ℚ), ([] : List Nat))) (fun _ => ([] : List Char))
        [] 0 none false false 0 [] [] [] 0
        [(none : Option (String × Unit))] = none ∧
     aggregateOut ((([] : List Unit) ++ () :: []).map
        (fun _ : Unit => (none : Option (List PRResult)))) =
       aggregateOut ((([] : List Unit) ++ ([] : List Unit)).map
        (fun _ : Unit => (none : Option (List PRResult)))) ∧
     aggregateOut exRun = (exRun.filterMap id).flatten) :=
  ⟨rfl, List.mem_singleton.mpr rfl,
   c3_unit_isolation (fun _ : Unit => (none : Option (List PRResult))) () rfl
     [] [] (fun _ : Unit => ([] : Mat)) (fun _ _ => ((0 : ℚ), (0 : ℚ), (0 : ℚ)))
     id (fun _ _ => ((0 : ℚ), ([] : List Nat))) (fun _ => ([] : List Char))
     [] 0 none false false 0 [] [] [] 0 [(none : Option (String × Unit))]
     (List.mem_singleton.mpr rfl) exRun⟩

/-- C4 counterexample: in a run with two processed reads and one skipped
unit, the skipped count (1) appears nowhere among the numbers the
summary actually writes — `main` counts and reports only the processed
reads (with bases, events, wall time and the job-normalized timings),
never a skipped count, so the claim that the summary reports "processed
vs. skipped" is false. -/
theorem c4_no_skip_report :
    0 < (mainFold exRun).nReads ∧
    skippedUnits exRun = 1 ∧
    (1 : ℚ) ∉ summaryNumbers 3 100 (mainFold exRun) := by
  refine ⟨by decide, by decide, ?_⟩
  norm_num [exRun, exR1, exR2, mainFold, unitStep, resStep, addT, zeroT,
    summaryNumbers]

/-- C4 (amended): after a run with at least one processed read, the
summary reports the processed-read count (with base and event totals and
the wall time) and the five per-stage timing totals each divided by the
configured job count — but no skipped count — and no sequence is ever
emitted for a failed unit: a `none` unit leaves the aggregation
unchanged, and the fasta output is exactly the list of
`(name, sequence)` pairs of the successful results. -/
theorem c4_summary_amended (xs ys rets : List (Option (List PRResult)))
    (jobs : Nat) (wall : ℚ) (h : 0 < (mainFold rets).nReads) :
    mainFold (xs ++ none :: ys) = mainFold (xs ++ ys) ∧
    (mainFold rets).nReads = (successResults rets).length ∧
    (mainFold rets).fasta = (successResults rets).map (fun r => (r.name, r.seq)) ∧
    summaryNumbers jobs wall (mainFold rets) =
      [((mainFold rets).nReads : ℚ), ((mainFold rets).nBases : ℚ),
       ((mainFold rets).nEvents : ℚ), wall,
       (mainFold rets).timings.1 / (jobs : ℚ),
       (mainFold rets).timings.2.1 / (jobs : ℚ),
       (mainFold rets).timings.2.2.1 / (jobs : ℚ),
       (((mainFold rets).nBases / 1000 : Nat) : ℚ)
         / ((mainFold rets).timings.2.2.1 / (jobs : ℚ)),
       (((mainFold rets).nEvents / 1000 : Nat) : ℚ)
         / ((mainFold rets).timings.2.2.1 / (jobs : ℚ)),
       (mainFold rets).timings.2.2.2.1 / (jobs : ℚ),
       (((mainFold rets).nBases / 1000 : Nat) : ℚ)
         / ((mainFold rets).timings.2.2.2.1 / (jobs : ℚ)),
       (((mainFold rets).nEvents / 1000 : Nat) : ℚ)
         / ((mainFold rets).timings.2.2.2.1 / (jobs : ℚ)),
       (mainFold rets).timings.2.2.2.2 / (jobs : ℚ)] := by
  refine ⟨?_, ?_, ?_, ?_⟩
  · unfold mainFold
    rw [List.foldl_append, List.foldl_append, List.foldl_cons]
    rfl
  · rw [mainFold_eq]
  · rw [mainFold_eq]
  · simp only [summaryNumbers, if_pos h]
    rfl

/-- Witness for C4 (amended) at the concrete run `exRun`. -/
theorem c4_summary_amended_w :
    0 < (mainFold exRun).nReads ∧
    (mainFold (([] : List (Option (List PRResult))) ++ none :: ([] : List (Option (List PRResult))))
        = mainFold (([] : List (Option (List PRResult))) ++ ([] : List (Option (List PRResult)))) ∧
     (mainFold exRun).nReads = (successResults exRun).length ∧
     (mainFold exRun).fasta = (successResults exRun).map (fun r => (r.name, r.seq)) ∧
     summaryNumbers 3 100 (mainFold exRun) =
       [((mainFold exRun).nReads : ℚ), ((mainFold exRun).nBases : ℚ),
        ((mainFold exRun).nEvents : ℚ), 100,
        (mainFold exRun).timings.1 / ((3 : Nat) : ℚ),
        (mainFold exRun).timings.2.1 / ((3 : Nat) : ℚ),
        (mainFold exRun).timings.2.2.1 / ((3 : Nat) : ℚ),
        (((mainFold exRun).nBases / 1000 : Nat) : ℚ)
          / ((mainFold exRun).timings.2.2.1 / ((3 : Nat) : ℚ)),
        (((mainFold exRun).nEvents / 1000 : Nat) : ℚ)
          / ((mainFold exRun).timings.2.2.1 / ((3 : Nat) : ℚ)),
        (mainFold exRun).timings.2.2.2.1 / ((3 : Nat) : ℚ),
        (((mainFold exRun).nBases / 1000 : Nat) : ℚ)
          / ((mainFold exRun).timings.2.2.2.1 / ((3 : Nat) : ℚ)),
        (((mainFold exRun).nEvents / 1000 : Nat) : ℚ)
          / ((mainFold exRun).timings.2.2.2.1 / ((3 : Nat) : ℚ)),
        (mainFold exRun).timings.2.2.2.2 / ((3 : Nat) : ℚ)]) :=
  ⟨by decide, c4_summary_amended [] [] exRun 3 100 (by decide)⟩

end Nanonet
